import Mathlib

/-!
Verification of the RSVP admission-control subsystem of the MERN event
management application (backend/controllers/rsvpController.js,
backend/controllers/eventController.js, backend/models/Event.js,
backend/models/RSVP.js).

The MongoDB store is embedded shallowly:
* the `events` collection is an association list from event id to the
  event fields the subsystem reads and writes (`capacity`,
  `attendeeCount`, the future/past classification of `date`, `creator`);
* the `rsvps` collection is a list of RSVP documents
  `{event, user, status}`; the compound unique index on `(event, user)`
  (RSVP.js `rsvpSchema.index({event: 1, user: 1}, {unique: true})`) is
  embedded as an insert that fails with a duplicate-key error whenever a
  document with the same `(event, user)` pair is already present;
* `findOne` is first-match search over the list; `findOneAndUpdate` with
  a filter condition is a conditional update of the identified document
  that mutates nothing when the condition fails;
* a MongoDB transaction (`session.startTransaction` ...
  `commitTransaction`/`abortTransaction`) is embedded by returning the
  original database state whenever the code path aborts the transaction.

Request handlers become functions `DB → args → ApiResult × DB`.
-/

/-- RSVP `status` field, an enum of `confirmed`, `cancelled` and
`waitlist` (RSVP.js). -/
inductive RsvpStatus where
  | confirmed
  | cancelled
  | waitlist
deriving DecidableEq, Repr

/-- One document of the `rsvps` collection (RSVP.js): the `event` and
`user` references and the `status` field.  Timestamps are not modelled:
no claim mentions them. -/
structure RsvpRecord where
  event : Nat
  user : Nat
  status : RsvpStatus
deriving DecidableEq, Repr

/-- The fields of an `events` document (Event.js) that the admission
subsystem reads or writes: `capacity`, `attendeeCount`, the creator
reference, and whether `date` is in the future (the code only ever tests
`new Date(event.date) < new Date()`, so the date is embedded as that
boolean). -/
structure EventRec where
  capacity : Nat
  attendeeCount : Nat
  isFuture : Bool
  creator : Nat
deriving DecidableEq, Repr

/-- The database: the `events` collection keyed by `_id` and the `rsvps`
collection. -/
structure DB where
  events : List (Nat × EventRec)
  rsvps : List RsvpRecord
deriving DecidableEq, Repr

/-- Outcome of a request handler, abstracting the HTTP status and message
actually sent.  `committed` carries the `(attendeeCount, capacity)`
snapshot of the updated event document returned in the response body. -/
inductive ApiResult where
  | committed (attendeeCount capacity : Nat)
  | eventNotFound
  | pastEvent
  | alreadyRsvped
  | eventFull
  | notRsvped
  | updateError
  | notAuthorized
  | capacityBelowCount
  | validationFailed
  | eventCreated (id : Nat)
  | eventUpdated
  | eventDeleted
deriving DecidableEq, Repr

/-- Embeds `Event.findById(eventId)`: first document whose `_id` matches. -/
def lookupEvent (evs : List (Nat × EventRec)) (id : Nat) : Option EventRec :=
  match evs with
  | [] => none
  | (k, e) :: rest => if k = id then some e else lookupEvent rest id

/-- Embeds `Event.findOneAndUpdate` with a filter on `_id` and a
condition, returning the new document: the
document with `_id = id` is updated by `f` exactly when `cond` holds of
it, and the post-update document is returned; when the condition fails
(or no document has this `_id`) nothing matches, nothing is mutated and
`null` is returned.  MongoDB evaluates the condition and applies the
update as one atomic operation on the single document; sequentially that
is this function. -/
def condUpdateEvent (evs : List (Nat × EventRec)) (id : Nat)
    (cond : EventRec → Bool) (f : EventRec → EventRec) :
    Option EventRec × List (Nat × EventRec) :=
  match evs with
  | [] => (none, [])
  | (k, e) :: rest =>
    if k = id then
      if cond e then (some (f e), (k, f e) :: rest)
      else (none, (k, e) :: rest)
    else
      let p := condUpdateEvent rest id cond f
      (p.1, (k, e) :: p.2)

/-- The admit step of the Capacity Ledger (rsvpController.js
`createRsvp`): the `findOneAndUpdate` whose filter compares
`attendeeCount` against `capacity` with `$expr`/`$lt` and whose update is
the increment `$inc` of `attendeeCount` by 1. -/
def ledgerReserve (evs : List (Nat × EventRec)) (id : Nat) :
    Option EventRec × List (Nat × EventRec) :=
  condUpdateEvent evs id (fun e => decide (e.attendeeCount < e.capacity))
    (fun e => { e with attendeeCount := e.attendeeCount + 1 })

/-- The release step of the Capacity Ledger (rsvpController.js
`cancelRsvp`): the `findOneAndUpdate` whose filter requires
`attendeeCount` greater than 0 via `$gt` and whose update is the
decrement `$inc` of `attendeeCount` by 1. -/
def ledgerRelease (evs : List (Nat × EventRec)) (id : Nat) :
    Option EventRec × List (Nat × EventRec) :=
  condUpdateEvent evs id (fun e => decide (0 < e.attendeeCount))
    (fun e => { e with attendeeCount := e.attendeeCount - 1 })

/-- Embeds `RSVP.findOne` on event, user and status: the first matching document. -/
def findRsvp (rs : List RsvpRecord) (e u : Nat) (st : RsvpStatus) :
    Option RsvpRecord :=
  rs.find? (fun r => decide (r.event = e ∧ r.user = u ∧ r.status = st))

/-- Embeds `RSVP.create` of a `confirmed` record under the unique
compound index on `(event, user)`: the insert fails with duplicate-key
error E11000 (returns `none`) when any document for the pair already
exists, regardless of its status. -/
def insertRsvp (rs : List RsvpRecord) (e u : Nat) :
    Option (List RsvpRecord) :=
  if rs.any (fun r => decide (r.event = e ∧ r.user = u)) then none
  else some (rs ++ [⟨e, u, .confirmed⟩])

/-- Embeds the reactivation write of `createRsvp` (setting
`cancelledRsvp.status` to `confirmed` and saving it): the first document
found for the pair with status `cancelled` is flipped to `confirmed` in
place. -/
def reactivateFirst (rs : List RsvpRecord) (e u : Nat) : List RsvpRecord :=
  match rs with
  | [] => []
  | r :: rest =>
    if r.event = e ∧ r.user = u ∧ r.status = .cancelled then
      { r with status := .confirmed } :: rest
    else
      r :: reactivateFirst rest e u

/-- Embeds the cancellation write of `cancelRsvp` (setting `rsvp.status`
to `cancelled` and saving it): the first document found for the pair
with status `confirmed` is flipped to `cancelled` in place. -/
def cancelFirst (rs : List RsvpRecord) (e u : Nat) : List RsvpRecord :=
  match rs with
  | [] => []
  | r :: rest =>
    if r.event = e ∧ r.user = u ∧ r.status = .confirmed then
      { r with status := .cancelled } :: rest
    else
      r :: cancelFirst rest e u

/-- Handler for POST of an RSVP — rsvpController.js `createRsvp`.
Step order follows the source: event existence, past-date check,
existing-confirmed-RSVP check, cancelled-RSVP probe, then inside the
transaction the atomic capacity-guarded increment followed by the
registry write (reactivation of the cancelled document, or insert under
the unique index).  `abortTransaction` paths return the incoming `db`
unchanged; the duplicate-key error from the insert is caught and mapped
to the already-RSVPed rejection. -/
def createRsvp (db : DB) (eventId userId : Nat) : ApiResult × DB :=
  match lookupEvent db.events eventId with
  | none => (.eventNotFound, db)
  | some ev =>
    if !ev.isFuture then (.pastEvent, db)
    else if (findRsvp db.rsvps eventId userId .confirmed).isSome then
      (.alreadyRsvped, db)
    else
      let hadCancelled := (findRsvp db.rsvps eventId userId .cancelled).isSome
      match ledgerReserve db.events eventId with
      | (none, _) => (.eventFull, db)
      | (some updated, events') =>
        if hadCancelled then
          (.committed updated.attendeeCount updated.capacity,
           { events := events', rsvps := reactivateFirst db.rsvps eventId userId })
        else
          match insertRsvp db.rsvps eventId userId with
          | some rsvps' =>
            (.committed updated.attendeeCount updated.capacity,
             { events := events', rsvps := rsvps' })
          | none => (.alreadyRsvped, db)

/-- Handler for DELETE of an RSVP — rsvpController.js `cancelRsvp`.
Finds the confirmed RSVP (404 `notRsvped` if absent), checks the event
exists, then inside the transaction flips the RSVP to `cancelled` and
performs the zero-guarded atomic decrement; when the decrement matches
no document the transaction is aborted — rolling back the status flip —
and a 500 update error is returned. -/
def cancelRsvp (db : DB) (eventId userId : Nat) : ApiResult × DB :=
  if (findRsvp db.rsvps eventId userId .confirmed).isNone then
    (.notRsvped, db)
  else
    match lookupEvent db.events eventId with
    | none => (.eventNotFound, db)
    | some _ =>
      let rsvps' := cancelFirst db.rsvps eventId userId
      match ledgerRelease db.events eventId with
      | (none, _) => (.updateError, db)
      | (some updated, events') =>
        (.committed updated.attendeeCount updated.capacity,
         { events := events', rsvps := rsvps' })

/-- Handler for the RSVP status GET — rsvpController.js `getRsvpStatus`.
Searches for a confirmed RSVP; responds `hasRsvped: !!rsvp` with the
the record details when found and `null` otherwise. -/
def getRsvpStatus (db : DB) (eventId userId : Nat) :
    Bool × Option RsvpRecord :=
  match findRsvp db.rsvps eventId userId .confirmed with
  | some r => (true, some r)
  | none => (false, none)

/-- Handler for event creation — eventController.js `createEvent`.  Rejects a
past date, creates the event with `attendeeCount: 0`; mongoose validates
`capacity` against `min: 1` and `max: 100000` (Event.js), a validation
failure creating nothing. -/
def createEvent (db : DB) (creatorId newId capacity : Nat)
    (isFuture : Bool) : ApiResult × DB :=
  if !isFuture then (.pastEvent, db)
  else if capacity < 1 ∨ 100000 < capacity then (.validationFailed, db)
  else
    (.eventCreated newId,
     { db with events := db.events ++
         [(newId, ⟨capacity, 0, isFuture, creatorId⟩)] })

/-- The fields of an update request body that matter to the subsystem.
The handler destructures only `title, description, date, location,
capacity, imageUrl` from the body; an `attendeeCount` field a client may
supply is carried here to record that it is never read.  JavaScript
truthiness of `capacity` is embedded: `some 0` is falsy, so the guard
`if (capacity && ...)` and the guard `if (capacity)` both skip it. -/
structure UpdateReq where
  capacity : Option Nat
  newIsFuture : Option Bool
  attendeeCount : Option Nat
deriving DecidableEq, Repr

/-- Truthiness of the `capacity` field of the request body. -/
def UpdateReq.capTruthy (req : UpdateReq) : Bool :=
  match req.capacity with
  | some c => decide (c ≠ 0)
  | none => false

/-- Replace the first event document whose `_id` matches with `e'`
(`Event.findByIdAndUpdate` with a `$set` of the supplied fields). -/
def setEvent (evs : List (Nat × EventRec)) (id : Nat) (e' : EventRec) :
    List (Nat × EventRec) :=
  match evs with
  | [] => []
  | (k, e) :: rest =>
    if k = id then (k, e') :: rest
    else (k, e) :: setEvent rest id e'

/-- Handler for event update — eventController.js `updateEvent`.  Checks
existence and creatorship, rejects a truthy capacity strictly below the
current `attendeeCount`, then `$set`s the supplied fields; the update
object never includes `attendeeCount`. -/
def updateEvent (db : DB) (eventId callerId : Nat) (req : UpdateReq) :
    ApiResult × DB :=
  match lookupEvent db.events eventId with
  | none => (.eventNotFound, db)
  | some ev =>
    if ev.creator ≠ callerId then (.notAuthorized, db)
    else if req.capTruthy ∧ req.capacity.getD 0 < ev.attendeeCount then
      (.capacityBelowCount, db)
    else
      let ev' : EventRec :=
        { ev with
          capacity := if req.capTruthy then req.capacity.getD 0 else ev.capacity,
          isFuture := req.newIsFuture.getD ev.isFuture }
      (.eventUpdated, { db with events := setEvent db.events eventId ev' })

/-- Remove the first event document whose `_id` matches
(`Event.findByIdAndDelete`). -/
def removeEvent (evs : List (Nat × EventRec)) (id : Nat) :
    List (Nat × EventRec) :=
  match evs with
  | [] => []
  | (k, e) :: rest =>
    if k = id then rest
    else (k, e) :: removeEvent rest id

/-- Handler for event deletion — eventController.js `deleteEvent`.  Checks
existence and creatorship, then `RSVP.deleteMany({event: event._id})`
followed by `Event.findByIdAndDelete`. -/
def deleteEvent (db : DB) (eventId callerId : Nat) : ApiResult × DB :=
  match lookupEvent db.events eventId with
  | none => (.eventNotFound, db)
  | some ev =>
    if ev.creator ≠ callerId then (.notAuthorized, db)
    else
      (.eventDeleted,
       { events := removeEvent db.events eventId,
         rsvps := db.rsvps.filter (fun r => decide (r.event ≠ eventId)) })

/-- The pair view of an RSVP document: the fields covered by the unique
compound index. -/
def rsvpKey (r : RsvpRecord) : Nat × Nat :=
  (r.event, r.user)

/-- The storage-level uniqueness guarantee: no two RSVP documents share
the same `(event, user)` pair. -/
def pairUnique (rs : List RsvpRecord) : Prop :=
  (rs.map rsvpKey).Nodup

/-- The capacity invariant for one event document. -/
def eventInv (e : EventRec) : Prop :=
  e.attendeeCount ≤ e.capacity

/-- The capacity invariant over the whole `events` collection. -/
def dbInv (db : DB) : Prop :=
  ∀ p ∈ db.events, eventInv p.2

example :
    createRsvp ⟨[(7, ⟨2, 0, true, 0⟩)], []⟩ 7 3 =
      (.committed 1 2, ⟨[(7, ⟨2, 1, true, 0⟩)], [⟨7, 3, .confirmed⟩]⟩) := by
  decide

example :
    createRsvp ⟨[(7, ⟨1, 1, true, 0⟩)], []⟩ 7 3 =
      (.eventFull, ⟨[(7, ⟨1, 1, true, 0⟩)], []⟩) := by
  decide

example :
    cancelRsvp ⟨[(7, ⟨2, 1, true, 0⟩)], [⟨7, 3, .confirmed⟩]⟩ 7 3 =
      (.committed 0 2, ⟨[(7, ⟨2, 0, true, 0⟩)], [⟨7, 3, .cancelled⟩]⟩) := by
  decide

/-! ### Store-primitive lemmas -/

theorem condUpdateEvent_lookup_none (evs : List (Nat × EventRec)) (id : Nat)
    (cond : EventRec → Bool) (f : EventRec → EventRec)
    (h : lookupEvent evs id = none) :
    condUpdateEvent evs id cond f = (none, evs) := by
  induction evs with
  | nil => rfl
  | cons p rest ih =>
    obtain ⟨k, e⟩ := p
    by_cases hk : k = id
    · simp [lookupEvent, hk] at h
    · simp only [lookupEvent, hk, if_false] at h
      simp [condUpdateEvent, hk, ih h]

theorem condUpdateEvent_cond_false (evs : List (Nat × EventRec)) (id : Nat)
    (cond : EventRec → Bool) (f : EventRec → EventRec) (e : EventRec)
    (h : lookupEvent evs id = some e) (hc : cond e = false) :
    condUpdateEvent evs id cond f = (none, evs) := by
  induction evs with
  | nil => simp [lookupEvent] at h
  | cons p rest ih =>
    obtain ⟨k, e'⟩ := p
    by_cases hk : k = id
    · simp only [lookupEvent, hk, if_true, Option.some.injEq] at h
      subst h
      simp [condUpdateEvent, hk, hc]
    · simp only [lookupEvent, hk, if_false] at h
      simp [condUpdateEvent, hk, ih h]

theorem condUpdateEvent_cond_true (evs : List (Nat × EventRec)) (id : Nat)
    (cond : EventRec → Bool) (f : EventRec → EventRec) (e : EventRec)
    (h : lookupEvent evs id = some e) (hc : cond e = true) :
    condUpdateEvent evs id cond f = (some (f e), setEvent evs id (f e)) := by
  induction evs with
  | nil => simp [lookupEvent] at h
  | cons p rest ih =>
    obtain ⟨k, e'⟩ := p
    by_cases hk : k = id
    · simp only [lookupEvent, hk, if_true, Option.some.injEq] at h
      subst h
      simp [condUpdateEvent, setEvent, hk, hc]
    · simp only [lookupEvent, hk, if_false] at h
      simp [condUpdateEvent, setEvent, hk, ih h]

theorem lookupEvent_setEvent_self (evs : List (Nat × EventRec)) (id : Nat)
    (e' : EventRec) (h : (lookupEvent evs id).isSome) :
    lookupEvent (setEvent evs id e') id = some e' := by
  induction evs with
  | nil => simp [lookupEvent] at h
  | cons p rest ih =>
    obtain ⟨k, e⟩ := p
    by_cases hk : k = id
    · simp [setEvent, lookupEvent, hk]
    · simp only [lookupEvent, hk, if_false] at h
      simp [setEvent, lookupEvent, hk, ih h]

theorem lookupEvent_setEvent_ne (evs : List (Nat × EventRec)) (id id' : Nat)
    (e' : EventRec) (h : id' ≠ id) :
    lookupEvent (setEvent evs id e') id' = lookupEvent evs id' := by
  induction evs with
  | nil => rfl
  | cons p rest ih =>
    obtain ⟨k, e⟩ := p
    by_cases hk : k = id
    · subst hk
      have hk' : ¬ k = id' := fun hh => h hh.symm
      simp [setEvent, lookupEvent, hk']
    · simp [setEvent, lookupEvent, hk, ih]

theorem setEvent_forall {P : EventRec → Prop} (evs : List (Nat × EventRec))
    (id : Nat) (e' : EventRec) (h : ∀ p ∈ evs, P p.2) (he : P e') :
    ∀ p ∈ setEvent evs id e', P p.2 := by
  induction evs with
  | nil => simp [setEvent]
  | cons p rest ih =>
    obtain ⟨k, e⟩ := p
    intro q hq
    by_cases hk : k = id
    · simp only [setEvent, hk, if_true, List.mem_cons] at hq
      rcases hq with hq | hq
      · subst hq; exact he
      · exact h q (List.mem_cons_of_mem _ hq)
    · simp only [setEvent, hk, if_false, List.mem_cons] at hq
      rcases hq with hq | hq
      · subst hq; exact h _ (List.mem_cons_self _ _)
      · exact ih (fun r hr => h r (List.mem_cons_of_mem _ hr)) q hq

theorem removeEvent_subset (evs : List (Nat × EventRec)) (id : Nat)
    (p : Nat × EventRec) (h : p ∈ removeEvent evs id) : p ∈ evs := by
  induction evs with
  | nil => simp [removeEvent] at h
  | cons q rest ih =>
    obtain ⟨k, e⟩ := q
    by_cases hk : k = id
    · simp only [removeEvent, hk, if_true] at h
      exact List.mem_cons_of_mem _ h
    · simp only [removeEvent, hk, if_false, List.mem_cons] at h
      rcases h with h | h
      · subst h; exact List.mem_cons_self _ _
      · exact List.mem_cons_of_mem _ (ih h)

theorem ledgerReserve_some (evs : List (Nat × EventRec)) (id : Nat) (e : EventRec)
    (h : lookupEvent evs id = some e) (hc : e.attendeeCount < e.capacity) :
    ledgerReserve evs id =
      (some { e with attendeeCount := e.attendeeCount + 1 },
       setEvent evs id { e with attendeeCount := e.attendeeCount + 1 }) := by
  exact condUpdateEvent_cond_true evs id _ _ e h (by simpa using hc)

theorem ledgerReserve_full (evs : List (Nat × EventRec)) (id : Nat) (e : EventRec)
    (h : lookupEvent evs id = some e) (hc : ¬ e.attendeeCount < e.capacity) :
    ledgerReserve evs id = (none, evs) := by
  exact condUpdateEvent_cond_false evs id _ _ e h (by simpa using hc)

theorem ledgerRelease_some (evs : List (Nat × EventRec)) (id : Nat) (e : EventRec)
    (h : lookupEvent evs id = some e) (hc : 0 < e.attendeeCount) :
    ledgerRelease evs id =
      (some { e with attendeeCount := e.attendeeCount - 1 },
       setEvent evs id { e with attendeeCount := e.attendeeCount - 1 }) := by
  exact condUpdateEvent_cond_true evs id _ _ e h (by simpa using hc)

theorem ledgerRelease_floor (evs : List (Nat × EventRec)) (id : Nat) (e : EventRec)
    (h : lookupEvent evs id = some e) (hc : ¬ 0 < e.attendeeCount) :
    ledgerRelease evs id = (none, evs) := by
  exact condUpdateEvent_cond_false evs id _ _ e h (by simpa using hc)

/-! ### RSVP-collection lemmas -/

theorem findRsvp_isSome_iff (rs : List RsvpRecord) (e u : Nat) (st : RsvpStatus) :
    (findRsvp rs e u st).isSome ↔
      ∃ r ∈ rs, r.event = e ∧ r.user = u ∧ r.status = st := by
  simp [findRsvp, List.find?_isSome]

theorem findRsvp_eq_none_iff (rs : List RsvpRecord) (e u : Nat) (st : RsvpStatus) :
    findRsvp rs e u st = none ↔
      ∀ r ∈ rs, ¬ (r.event = e ∧ r.user = u ∧ r.status = st) := by
  simp [findRsvp, List.find?_eq_none]

theorem insertRsvp_eq_none_iff (rs : List RsvpRecord) (e u : Nat) :
    insertRsvp rs e u = none ↔ ∃ r ∈ rs, r.event = e ∧ r.user = u := by
  simp only [insertRsvp]
  by_cases h : rs.any (fun r => decide (r.event = e ∧ r.user = u)) = true
  · simp only [h, if_true]
    simpa [List.any_eq_true] using h
  · simp only [h]
    simp only [List.any_eq_true, decide_eq_true_eq] at h
    simpa using h

theorem rsvpKey_reactivateFirst (rs : List RsvpRecord) (e u : Nat) :
    (reactivateFirst rs e u).map rsvpKey = rs.map rsvpKey := by
  induction rs with
  | nil => rfl
  | cons r rest ih =>
    by_cases h : r.event = e ∧ r.user = u ∧ r.status = RsvpStatus.cancelled
    · simp [reactivateFirst, h, rsvpKey]
    · simp [reactivateFirst, h, ih]

theorem rsvpKey_cancelFirst (rs : List RsvpRecord) (e u : Nat) :
    (cancelFirst rs e u).map rsvpKey = rs.map rsvpKey := by
  induction rs with
  | nil => rfl
  | cons r rest ih =>
    by_cases h : r.event = e ∧ r.user = u ∧ r.status = RsvpStatus.confirmed
    · simp [cancelFirst, h, rsvpKey]
    · simp [cancelFirst, h, ih]

theorem mem_reactivateFirst_confirmed (rs : List RsvpRecord) (e u : Nat)
    (h : ∃ r ∈ rs, r.event = e ∧ r.user = u ∧ r.status = RsvpStatus.cancelled) :
    ∃ r ∈ reactivateFirst rs e u,
      r.event = e ∧ r.user = u ∧ r.status = RsvpStatus.confirmed := by
  induction rs with
  | nil => simp at h
  | cons r rest ih =>
    by_cases hr : r.event = e ∧ r.user = u ∧ r.status = RsvpStatus.cancelled
    · refine ⟨{ r with status := RsvpStatus.confirmed }, ?_, hr.1, hr.2.1, rfl⟩
      simp [reactivateFirst, hr]
    · rcases h with ⟨x, hx, hxp⟩
      rcases List.mem_cons.mp hx with hx | hx
      · subst hx; exact absurd hxp hr
      · rcases ih ⟨x, hx, hxp⟩ with ⟨y, hy, hyp⟩
        exact ⟨y, by simp [reactivateFirst, hr, List.mem_cons, Or.inr hy], hyp⟩

theorem cancelFirst_reactivateFirst_cancel (rs : List RsvpRecord) (e u : Nat)
    (h : ∀ r ∈ rs, r.event = e → r.user = u → r.status = RsvpStatus.cancelled) :
    cancelFirst (reactivateFirst rs e u) e u = rs := by
  induction rs with
  | nil => rfl
  | cons r rest ih =>
    obtain ⟨ev, us, st⟩ := r
    by_cases hp : ev = e ∧ us = u
    · obtain ⟨he, hu⟩ := hp
      subst he; subst hu
      have hst : st = RsvpStatus.cancelled :=
        h _ (List.mem_cons_self _ _) rfl rfl
      subst hst
      simp [reactivateFirst, cancelFirst]
    · have hr : ¬ (ev = e ∧ us = u ∧ st = RsvpStatus.cancelled) :=
        fun hh => hp ⟨hh.1, hh.2.1⟩
      have hr' : ¬ (ev = e ∧ us = u ∧ st = RsvpStatus.confirmed) :=
        fun hh => hp ⟨hh.1, hh.2.1⟩
      simp [reactivateFirst, cancelFirst, hr, hr',
        ih (fun x hx => h x (List.mem_cons_of_mem _ hx))]

theorem cancelFirst_append_fresh (rs : List RsvpRecord) (e u : Nat)
    (h : ∀ r ∈ rs, ¬ (r.event = e ∧ r.user = u)) :
    cancelFirst (rs ++ [⟨e, u, RsvpStatus.confirmed⟩]) e u =
      rs ++ [⟨e, u, RsvpStatus.cancelled⟩] := by
  induction rs with
  | nil => simp [cancelFirst]
  | cons r rest ih =>
    have hr : ¬ (r.event = e ∧ r.user = u ∧ r.status = RsvpStatus.confirmed) :=
      fun hh => h r (List.mem_cons_self _ _) ⟨hh.1, hh.2.1⟩
    simp only [List.cons_append, cancelFirst, if_neg hr]
    show r :: cancelFirst (rest ++ [⟨e, u, RsvpStatus.confirmed⟩]) e u =
      r :: (rest ++ [⟨e, u, RsvpStatus.cancelled⟩])
    rw [ih (fun x hx => h x (List.mem_cons_of_mem _ hx))]

theorem length_le_one_of_nodup_const {α : Type} (l : List α) (a : α)
    (hn : l.Nodup) (ha : ∀ x ∈ l, x = a) : l.length ≤ 1 := by
  match l with
  | [] => simp
  | [x] => simp
  | x :: y :: t =>
    exfalso
    have hx : x = a := ha x (List.mem_cons_self _ _)
    have hy : y = a := ha y (List.mem_cons_of_mem _ (List.mem_cons_self _ _))
    have hne : x ≠ y := by
      have hn' := List.nodup_cons.mp hn
      exact fun he => hn'.1 (by rw [he]; exact List.mem_cons_self _ _)
    exact hne (hx.trans hy.symm)

/-! ### Branch characterizations of the handlers -/

theorem createRsvp_events_cases (db : DB) (e u : Nat) :
    (createRsvp db e u).2.events = db.events ∨
    ∃ ev, lookupEvent db.events e = some ev ∧
      ev.attendeeCount < ev.capacity ∧
      (createRsvp db e u).2.events =
        setEvent db.events e { ev with attendeeCount := ev.attendeeCount + 1 } := by
  rcases hl : lookupEvent db.events e with _ | ev
  · simp [createRsvp, hl]
  · cases hfut : ev.isFuture with
    | false => simp [createRsvp, hl, hfut]
    | true =>
      cases hconf : (findRsvp db.rsvps e u .confirmed).isSome with
      | true => simp [createRsvp, hl, hfut, hconf]
      | false =>
        by_cases hc : ev.attendeeCount < ev.capacity
        · have hadm := ledgerReserve_some db.events e ev hl hc
          cases hcanc : (findRsvp db.rsvps e u .cancelled).isSome with
          | true =>
            right
            exact ⟨ev, rfl, hc, by simp [createRsvp, hl, hfut, hconf, hcanc, hadm]⟩
          | false =>
            cases hins : insertRsvp db.rsvps e u with
            | none => simp [createRsvp, hl, hfut, hconf, hcanc, hadm, hins]
            | some rs' =>
              right
              exact ⟨ev, rfl, hc,
                by simp [createRsvp, hl, hfut, hconf, hcanc, hadm, hins]⟩
        · have hadm := ledgerReserve_full db.events e ev hl hc
          simp [createRsvp, hl, hfut, hconf, hadm]

theorem createRsvp_rsvps_cases (db : DB) (e u : Nat) :
    (createRsvp db e u).2.rsvps = db.rsvps ∨
    (createRsvp db e u).2.rsvps = reactivateFirst db.rsvps e u ∨
    ((∀ r ∈ db.rsvps, ¬ (r.event = e ∧ r.user = u)) ∧
     (createRsvp db e u).2.rsvps = db.rsvps ++ [⟨e, u, .confirmed⟩]) := by
  rcases hl : lookupEvent db.events e with _ | ev
  · simp [createRsvp, hl]
  · cases hfut : ev.isFuture with
    | false => simp [createRsvp, hl, hfut]
    | true =>
      cases hconf : (findRsvp db.rsvps e u .confirmed).isSome with
      | true => simp [createRsvp, hl, hfut, hconf]
      | false =>
        by_cases hc : ev.attendeeCount < ev.capacity
        · have hadm := ledgerReserve_some db.events e ev hl hc
          cases hcanc : (findRsvp db.rsvps e u .cancelled).isSome with
          | true =>
            right; left
            simp [createRsvp, hl, hfut, hconf, hcanc, hadm]
          | false =>
            cases hins : insertRsvp db.rsvps e u with
            | none => simp [createRsvp, hl, hfut, hconf, hcanc, hadm, hins]
            | some rs' =>
              right; right
              have hany : db.rsvps.any
                  (fun r => decide (r.event = e ∧ r.user = u)) = false := by
                cases hA : db.rsvps.any
                    (fun r => decide (r.event = e ∧ r.user = u)) with
                | false => rfl
                | true =>
                  unfold insertRsvp at hins
                  rw [hA] at hins
                  simp at hins
              have hall : ∀ r ∈ db.rsvps, ¬ (r.event = e ∧ r.user = u) := by
                intro r hr hp
                have hA : db.rsvps.any
                    (fun r => decide (r.event = e ∧ r.user = u)) = true :=
                  List.any_eq_true.mpr ⟨r, hr, by simpa using hp⟩
                rw [hany] at hA
                exact Bool.noConfusion hA
              have hins' : insertRsvp db.rsvps e u =
                  some (db.rsvps ++ [⟨e, u, .confirmed⟩]) := by
                simp only [insertRsvp, hany, Bool.false_eq_true, if_false]
              refine ⟨hall, ?_⟩
              simp [createRsvp, hl, hfut, hconf, hcanc, hadm, hins']
        · have hadm := ledgerReserve_full db.events e ev hl hc
          simp [createRsvp, hl, hfut, hconf, hadm]

theorem cancelRsvp_cases (db : DB) (e u : Nat) :
    (cancelRsvp db e u).2 = db ∨
    ∃ ev, lookupEvent db.events e = some ev ∧
      0 < ev.attendeeCount ∧
      (cancelRsvp db e u).2 =
        { events := setEvent db.events e
            { ev with attendeeCount := ev.attendeeCount - 1 },
          rsvps := cancelFirst db.rsvps e u } := by
  cases hr : (findRsvp db.rsvps e u .confirmed).isNone with
  | true => simp [cancelRsvp, hr]
  | false =>
    rcases hl : lookupEvent db.events e with _ | ev
    · simp [cancelRsvp, hr, hl]
    · by_cases hc : 0 < ev.attendeeCount
      · have hrel := ledgerRelease_some db.events e ev hl hc
        right
        exact ⟨ev, rfl, hc, by simp [cancelRsvp, hr, hl, hrel]⟩
      · have hrel := ledgerRelease_floor db.events e ev hl hc
        simp [cancelRsvp, hr, hl, hrel]

theorem deleteEvent_cases (db : DB) (e c : Nat) :
    (deleteEvent db e c).2 = db ∨
    (deleteEvent db e c).2 =
      { events := removeEvent db.events e,
        rsvps := db.rsvps.filter (fun r => decide (r.event ≠ e)) } := by
  rcases hl : lookupEvent db.events e with _ | ev
  · simp [deleteEvent, hl]
  · by_cases hcr : ev.creator = c
    · right; simp [deleteEvent, hl, hcr]
    · left; simp [deleteEvent, hl, hcr]

theorem updateEvent_cases (db : DB) (e c : Nat) (req : UpdateReq) :
    (updateEvent db e c req).2 = db ∨
    ∃ ev ev', lookupEvent db.events e = some ev ∧
      ¬ (req.capTruthy ∧ req.capacity.getD 0 < ev.attendeeCount) ∧
      ev' = { ev with
              capacity := if req.capTruthy then req.capacity.getD 0
                else ev.capacity,
              isFuture := req.newIsFuture.getD ev.isFuture } ∧
      (updateEvent db e c req).2 =
        { db with events := setEvent db.events e ev' } := by
  rcases hl : lookupEvent db.events e with _ | ev
  · simp [updateEvent, hl]
  · by_cases hcr : ev.creator = c
    · by_cases hguard : req.capTruthy ∧ req.capacity.getD 0 < ev.attendeeCount
      · left; simp [updateEvent, hl, hcr, hguard]
      · right
        refine ⟨ev, _, rfl, hguard, rfl, ?_⟩
        have hcr' : ¬ ev.creator ≠ c := fun hh => hh hcr
        simp [updateEvent, hl, hcr', hguard]
    · left
      have hcr' : ev.creator ≠ c := hcr
      simp [updateEvent, hl, hcr']

theorem lookupEvent_mem (evs : List (Nat × EventRec)) (id : Nat) (e : EventRec)
    (h : lookupEvent evs id = some e) : (id, e) ∈ evs := by
  induction evs with
  | nil => simp [lookupEvent] at h
  | cons p rest ih =>
    obtain ⟨k, e'⟩ := p
    by_cases hk : k = id
    · subst hk
      have hself : lookupEvent ((k, e') :: rest) k = some e' := by
        simp [lookupEvent]
      rw [hself] at h
      cases h
      exact List.mem_cons_self _ _
    · simp only [lookupEvent, hk, if_false] at h
      exact List.mem_cons_of_mem _ (ih h)

theorem lookupEvent_append_left_none (evs l₂ : List (Nat × EventRec)) (id : Nat)
    (h : lookupEvent evs id = none) :
    lookupEvent (evs ++ l₂) id = lookupEvent l₂ id := by
  induction evs with
  | nil => rfl
  | cons p rest ih =>
    obtain ⟨k, e⟩ := p
    by_cases hk : k = id
    · simp [lookupEvent, hk] at h
    · simp only [lookupEvent, hk, if_false] at h
      simp [lookupEvent, hk, ih h]

/-! ### Claims -/

/-- C1: The admit step of join — the capacity-guarded `findOneAndUpdate`
of `createRsvp`, embedded as `ledgerReserve` — is a conditional update of
the single identified event record: it compares `attendeeCount` against
`capacity`, and when `attendeeCount < capacity` it increments
`attendeeCount` by exactly 1 and returns the post-increment snapshot
(the updated document, carrying the incremented `attendeeCount` and the
unchanged `capacity`), touching no other record; otherwise it returns
the capacity-exceeded rejection (`none`, which `createRsvp` maps to the
event-full response) with no mutation of the collection at all. -/
theorem join_capacity_conditional_update
    (evs : List (Nat × EventRec)) (id : Nat) (e : EventRec)
    (h : lookupEvent evs id = some e) :
    (e.attendeeCount < e.capacity →
      ledgerReserve evs id =
        (some { e with attendeeCount := e.attendeeCount + 1 },
         setEvent evs id { e with attendeeCount := e.attendeeCount + 1 }) ∧
      lookupEvent (ledgerReserve evs id).2 id =
        some { e with attendeeCount := e.attendeeCount + 1 } ∧
      (∀ id', id' ≠ id →
        lookupEvent (ledgerReserve evs id).2 id' = lookupEvent evs id')) ∧
    (e.capacity ≤ e.attendeeCount →
      (ledgerReserve evs id).1 = none ∧ (ledgerReserve evs id).2 = evs) := by
  constructor
  · intro hc
    have hset := ledgerReserve_some evs id e h hc
    refine ⟨hset, ?_, ?_⟩
    · rw [hset]
      exact lookupEvent_setEvent_self evs id _ (by rw [h]; rfl)
    · intro id' hne
      rw [hset]
      exact lookupEvent_setEvent_ne evs id id' _ hne
  · intro hc
    have hfull := ledgerReserve_full evs id e h (Nat.not_lt.mpr hc)
    rw [hfull]
    exact ⟨rfl, rfl⟩

theorem join_capacity_conditional_update_witness :
    ledgerReserve [(5, (⟨3, 2, true, 9⟩ : EventRec))] 5 =
      (some ⟨3, 3, true, 9⟩, [(5, ⟨3, 3, true, 9⟩)]) :=
  ((join_capacity_conditional_update [(5, ⟨3, 2, true, 9⟩)] 5 ⟨3, 2, true, 9⟩
      (by decide)).1 (by decide)).1

/-- C2: After every operation the invariant `0 ≤ attendeeCount ≤
capacity` holds of every event (`attendeeCount` is a `Nat` here, so
`0 ≤ attendeeCount` is automatic): event creation starts the count at 0
(last conjunct), join increments only under the strict `attendeeCount <
capacity` guard, leave decrements only under the `attendeeCount > 0`
guard, event update rejects a truthy capacity below the current
`attendeeCount`, and deletion only removes records — so each handler
preserves `dbInv`. -/
theorem capacity_invariant_preserved (db : DB) (h : dbInv db) :
    (∀ c nid cap fut, dbInv (createEvent db c nid cap fut).2) ∧
    (∀ e u, dbInv (createRsvp db e u).2) ∧
    (∀ e u, dbInv (cancelRsvp db e u).2) ∧
    (∀ e c req, dbInv (updateEvent db e c req).2) ∧
    (∀ e c, dbInv (deleteEvent db e c).2) ∧
    (∀ c nid cap fut ev, lookupEvent db.events nid = none →
      lookupEvent (createEvent db c nid cap fut).2.events nid = some ev →
      ev.attendeeCount = 0) := by
  refine ⟨?_, ?_, ?_, ?_, ?_, ?_⟩
  · intro c nid cap fut
    cases fut with
    | false => exact h
    | true =>
      by_cases hcap : cap < 1 ∨ 100000 < cap
      · unfold createEvent
        rw [if_neg (by simp), if_pos hcap]
        exact h
      · unfold createEvent
        rw [if_neg (by simp), if_neg hcap]
        intro p hp
        simp only [List.mem_append, List.mem_singleton] at hp
        rcases hp with hp | hp
        · exact h p hp
        · subst hp
          exact Nat.zero_le _
  · intro e u
    rcases createRsvp_events_cases db e u with hE | ⟨ev, hl, hc, hE⟩
    · intro p hp; rw [hE] at hp; exact h p hp
    · intro p hp
      rw [hE] at hp
      refine setEvent_forall db.events e _ h ?_ p hp
      exact hc
  · intro e u
    rcases cancelRsvp_cases db e u with hE | ⟨ev, hl, hc, hE⟩
    · rw [hE]; exact h
    · intro p hp
      rw [hE] at hp
      refine setEvent_forall db.events e _ h ?_ p hp
      have hinv : eventInv ev := h _ (lookupEvent_mem db.events e ev hl)
      exact Nat.le_trans (Nat.sub_le _ _) hinv
  · intro e c req
    rcases updateEvent_cases db e c req with hE | ⟨ev, ev', hl, hguard, hev', hE⟩
    · rw [hE]; exact h
    · intro p hp
      rw [hE] at hp
      refine setEvent_forall db.events e _ h ?_ p hp
      subst hev'
      show ev.attendeeCount ≤ _
      by_cases ht : req.capTruthy
      · simp only [ht, if_true]
        have : ¬ req.capacity.getD 0 < ev.attendeeCount :=
          fun hlt => hguard ⟨ht, hlt⟩
        exact Nat.le_of_not_lt this
      · simp only [ht, if_false]
        exact h _ (lookupEvent_mem db.events e ev hl)
  · intro e c
    rcases deleteEvent_cases db e c with hE | hE
    · rw [hE]; exact h
    · rw [hE]
      intro p hp
      exact h p (removeEvent_subset db.events e p hp)
  · intro c nid cap fut ev hnone hlook
    cases fut with
    | false =>
      change lookupEvent db.events nid = some ev at hlook
      rw [hnone] at hlook
      exact Option.noConfusion hlook
    | true =>
      unfold createEvent at hlook
      rw [if_neg (by simp)] at hlook
      by_cases hcap : cap < 1 ∨ 100000 < cap
      · rw [if_pos hcap] at hlook
        change lookupEvent db.events nid = some ev at hlook
        rw [hnone] at hlook
        exact Option.noConfusion hlook
      · rw [if_neg hcap] at hlook
        have happ := lookupEvent_append_left_none db.events
          [(nid, ⟨cap, 0, true, c⟩)] nid hnone
        have hsing : lookupEvent [(nid, (⟨cap, 0, true, c⟩ : EventRec))] nid =
            some ⟨cap, 0, true, c⟩ := by
          simp [lookupEvent]
        change lookupEvent (db.events ++ [(nid, ⟨cap, 0, true, c⟩)]) nid =
          some ev at hlook
        rw [happ, hsing] at hlook
        cases hlook
        rfl

theorem capacity_invariant_preserved_witness :
    dbInv (createRsvp ⟨[(0, ⟨2, 1, true, 4⟩)], []⟩ 0 5).2 :=
  (capacity_invariant_preserved ⟨[(0, ⟨2, 1, true, 4⟩)], []⟩
    (by
      intro p hp
      simp only [List.mem_singleton] at hp
      subst hp
      exact (by decide : (1 : Nat) ≤ 2))).2.1 0 5

theorem pairUnique_reactivateFirst (rs : List RsvpRecord) (e u : Nat)
    (h : pairUnique rs) : pairUnique (reactivateFirst rs e u) := by
  unfold pairUnique
  rw [rsvpKey_reactivateFirst]
  exact h

theorem pairUnique_cancelFirst (rs : List RsvpRecord) (e u : Nat)
    (h : pairUnique rs) : pairUnique (cancelFirst rs e u) := by
  unfold pairUnique
  rw [rsvpKey_cancelFirst]
  exact h

theorem pairUnique_append_fresh (rs : List RsvpRecord) (e u : Nat)
    (st : RsvpStatus) (h : pairUnique rs)
    (hall : ∀ r ∈ rs, ¬ (r.event = e ∧ r.user = u)) :
    pairUnique (rs ++ [⟨e, u, st⟩]) := by
  unfold pairUnique
  rw [List.map_append]
  rw [List.nodup_append]
  refine ⟨h, List.nodup_singleton _, ?_⟩
  intro a ha hb
  simp only [List.map_cons, List.map_nil, List.mem_singleton] at hb
  subst hb
  rcases List.mem_map.mp ha with ⟨r, hr, hkey⟩
  have : r.event = e ∧ r.user = u := by
    have h1 := congrArg Prod.fst hkey
    have h2 := congrArg Prod.snd hkey
    exact ⟨h1, h2⟩
  exact hall r hr this

theorem pairUnique_filter (rs : List RsvpRecord) (p : RsvpRecord → Bool)
    (h : pairUnique rs) : pairUnique (rs.filter p) := by
  unfold pairUnique at h ⊢
  exact ((List.filter_sublist rs).map rsvpKey).nodup h

theorem length_reactivateFirst (rs : List RsvpRecord) (e u : Nat) :
    (reactivateFirst rs e u).length = rs.length := by
  have hm := congrArg List.length (rsvpKey_reactivateFirst rs e u)
  simpa using hm

theorem filter_confirmed_length_le_one (rs : List RsvpRecord)
    (h : pairUnique rs) (e u : Nat) :
    (rs.filter (fun r => decide (r.event = e ∧ r.user = u ∧
      r.status = RsvpStatus.confirmed))).length ≤ 1 := by
  set l := rs.filter (fun r => decide (r.event = e ∧ r.user = u ∧
    r.status = RsvpStatus.confirmed)) with hl
  have hsub : (l.map rsvpKey).Sublist (rs.map rsvpKey) :=
    (List.filter_sublist rs).map rsvpKey
  have hnodup : (l.map rsvpKey).Nodup := hsub.nodup h
  have hconst : ∀ x ∈ l.map rsvpKey, x = (e, u) := by
    intro x hx
    rcases List.mem_map.mp hx with ⟨r, hr, hkey⟩
    have hp := List.mem_filter.mp hr
    have hp' := of_decide_eq_true hp.2
    rw [← hkey]
    unfold rsvpKey
    rw [hp'.1, hp'.2.1]
  have := length_le_one_of_nodup_const (l.map rsvpKey) (e, u) hnodup hconst
  simpa using this

/-- C3: At most one confirmed attendance record exists for any
`(eventId, callerId)` pair (first conjunct, a consequence of the unique
compound index on the pair alone, embedded as `pairUnique`); the
uniqueness invariant is maintained by join, leave and event deletion;
and a join against an existing cancelled record flips that record in
place rather than inserting a new row — the length of the collection is
unchanged (last conjunct). -/
theorem at_most_one_record_per_pair (db : DB) (h : pairUnique db.rsvps) :
    (∀ e u, (db.rsvps.filter (fun r => decide (r.event = e ∧ r.user = u ∧
      r.status = RsvpStatus.confirmed))).length ≤ 1) ∧
    (∀ e u, pairUnique (createRsvp db e u).2.rsvps) ∧
    (∀ e u, pairUnique (cancelRsvp db e u).2.rsvps) ∧
    (∀ e c, pairUnique (deleteEvent db e c).2.rsvps) ∧
    (∀ e u, (findRsvp db.rsvps e u RsvpStatus.cancelled).isSome →
      (createRsvp db e u).2.rsvps.length = db.rsvps.length) := by
  refine ⟨fun e u => filter_confirmed_length_le_one db.rsvps h e u,
    ?_, ?_, ?_, ?_⟩
  · intro e u
    rcases createRsvp_rsvps_cases db e u with hR | hR | ⟨hall, hR⟩
    · rw [hR]; exact h
    · rw [hR]; exact pairUnique_reactivateFirst db.rsvps e u h
    · rw [hR]; exact pairUnique_append_fresh db.rsvps e u _ h hall
  · intro e u
    rcases cancelRsvp_cases db e u with hR | ⟨ev, hl, hc, hR⟩
    · rw [hR]; exact h
    · rw [hR]; exact pairUnique_cancelFirst db.rsvps e u h
  · intro e c
    rcases deleteEvent_cases db e c with hR | hR
    · rw [hR]; exact h
    · rw [hR]; exact pairUnique_filter db.rsvps _ h
  · intro e u hcanc
    rcases createRsvp_rsvps_cases db e u with hR | hR | ⟨hall, hR⟩
    · rw [hR]
    · rw [hR]; exact length_reactivateFirst db.rsvps e u
    · exfalso
      rcases (findRsvp_isSome_iff db.rsvps e u RsvpStatus.cancelled).mp hcanc
        with ⟨r, hr, he, hu, hst⟩
      exact hall r hr ⟨he, hu⟩

theorem at_most_one_record_per_pair_witness :
    ((([⟨0, 1, RsvpStatus.confirmed⟩, ⟨0, 2, RsvpStatus.confirmed⟩] :
        List RsvpRecord).filter (fun r => decide (r.event = 0 ∧ r.user = 1 ∧
      r.status = RsvpStatus.confirmed))).length ≤ 1) ∧
    pairUnique (createRsvp ⟨[(0, ⟨5, 2, true, 9⟩)],
      [⟨0, 1, RsvpStatus.confirmed⟩, ⟨0, 2, RsvpStatus.confirmed⟩]⟩ 0 3).2.rsvps :=
  ⟨(at_most_one_record_per_pair ⟨[(0, ⟨5, 2, true, 9⟩)],
      [⟨0, 1, RsvpStatus.confirmed⟩, ⟨0, 2, RsvpStatus.confirmed⟩]⟩
      (by unfold pairUnique; decide)).1 0 1,
   (at_most_one_record_per_pair ⟨[(0, ⟨5, 2, true, 9⟩)],
      [⟨0, 1, RsvpStatus.confirmed⟩, ⟨0, 2, RsvpStatus.confirmed⟩]⟩
      (by unfold pairUnique; decide)).2.1 0 3⟩

/-- C4: Whenever `createRsvp` reports anything other than a committed
join, the database it leaves behind is exactly the incoming one — in
particular the ledger increment never survives a reported failure,
because the registry write happens in the same transaction and every
failure path aborts it (first conjunct).  And when the registry insert
fails with the duplicate-key error of the unique index — reachable when
a document for the pair exists that is neither `confirmed` nor
`cancelled` — the error is translated into the already-RSVPed rejection
rather than surfaced as a raw storage error, again with no net mutation
(second conjunct). -/
theorem join_failure_compensated (db : DB) (e u : Nat) :
    (∀ r db', createRsvp db e u = (r, db') →
      (∀ n c, r ≠ ApiResult.committed n c) → db' = db) ∧
    (∀ ev, lookupEvent db.events e = some ev → ev.isFuture = true →
      ev.attendeeCount < ev.capacity →
      findRsvp db.rsvps e u RsvpStatus.confirmed = none →
      findRsvp db.rsvps e u RsvpStatus.cancelled = none →
      (∃ r ∈ db.rsvps, r.event = e ∧ r.user = u) →
      createRsvp db e u = (ApiResult.alreadyRsvped, db)) := by
  constructor
  · intro r db' hrun hnc
    rcases hl : lookupEvent db.events e with _ | ev
    · simp only [createRsvp, hl, Prod.mk.injEq] at hrun
      exact hrun.2.symm
    · cases hfut : ev.isFuture with
      | false =>
        simp only [createRsvp, hl, hfut, Bool.not_false, if_true,
          Prod.mk.injEq] at hrun
        exact hrun.2.symm
      | true =>
        cases hconf : (findRsvp db.rsvps e u .confirmed).isSome with
        | true =>
          simp only [createRsvp, hl, hfut, Bool.not_true, Bool.false_eq_true,
            if_false, hconf, if_true, Prod.mk.injEq] at hrun
          exact hrun.2.symm
        | false =>
          by_cases hc : ev.attendeeCount < ev.capacity
          · have hadm := ledgerReserve_some db.events e ev hl hc
            cases hcanc : (findRsvp db.rsvps e u .cancelled).isSome with
            | true =>
              simp only [createRsvp, hl, hfut, Bool.not_true,
                Bool.false_eq_true, if_false, hconf, hcanc, hadm, if_true,
                Prod.mk.injEq] at hrun
              exact absurd hrun.1.symm (hnc _ _)
            | false =>
              cases hins : insertRsvp db.rsvps e u with
              | none =>
                simp only [createRsvp, hl, hfut, Bool.not_true,
                  Bool.false_eq_true, if_false, hconf, hcanc, hadm, hins,
                  Prod.mk.injEq] at hrun
                exact hrun.2.symm
              | some rs' =>
                simp only [createRsvp, hl, hfut, Bool.not_true,
                  Bool.false_eq_true, if_false, hconf, hcanc, hadm, hins,
                  Prod.mk.injEq] at hrun
                exact absurd hrun.1.symm (hnc _ _)
          · have hadm := ledgerReserve_full db.events e ev hl hc
            simp only [createRsvp, hl, hfut, Bool.not_true, Bool.false_eq_true,
              if_false, hconf, hadm, Prod.mk.injEq] at hrun
            exact hrun.2.symm
  · intro ev hl hfut hc hcf hcc hex
    have hconf : (findRsvp db.rsvps e u RsvpStatus.confirmed).isSome = false := by
      rw [hcf]; rfl
    have hcanc : (findRsvp db.rsvps e u RsvpStatus.cancelled).isSome = false := by
      rw [hcc]; rfl
    have hadm := ledgerReserve_some db.events e ev hl hc
    have hins : insertRsvp db.rsvps e u = none :=
      (insertRsvp_eq_none_iff db.rsvps e u).mpr hex
    simp [createRsvp, hl, hfut, hconf, hcanc, hadm, hins]

theorem join_failure_compensated_witness :
    createRsvp ⟨[(0, ⟨2, 0, true, 9⟩)], [⟨0, 1, RsvpStatus.waitlist⟩]⟩ 0 1 =
      (ApiResult.alreadyRsvped,
       ⟨[(0, ⟨2, 0, true, 9⟩)], [⟨0, 1, RsvpStatus.waitlist⟩]⟩) :=
  (join_failure_compensated
    ⟨[(0, ⟨2, 0, true, 9⟩)], [⟨0, 1, RsvpStatus.waitlist⟩]⟩ 0 1).2
    ⟨2, 0, true, 9⟩ (by decide) rfl (by decide) (by decide) (by decide)
    ⟨⟨0, 1, RsvpStatus.waitlist⟩, by decide⟩

/-- C5 (counterexample): the claim asserts that when the ledger release
step of leave fails at the zero floor, the operation surfaces the
failure with the attendance record left `cancelled` — "the cancellation
… is not undone".  In the code the status flip (`rsvp.save({session})`)
happens inside the same transaction as the decrement, and the failure
path calls `session.abortTransaction()`, rolling the flip back: on the
concrete state below (confirmed RSVP, `attendeeCount = 0`) the record is
still `confirmed` after the call, and the rejection is the generic 500
update error, not a cancelled-record state. -/
theorem leave_floor_claim_counterexample :
    cancelRsvp ⟨[(0, ⟨1, 0, true, 9⟩)], [⟨0, 1, RsvpStatus.confirmed⟩]⟩ 0 1 =
      (ApiResult.updateError,
       ⟨[(0, ⟨1, 0, true, 9⟩)], [⟨0, 1, RsvpStatus.confirmed⟩]⟩) ∧
    (cancelRsvp ⟨[(0, ⟨1, 0, true, 9⟩)],
        [⟨0, 1, RsvpStatus.confirmed⟩]⟩ 0 1).2.rsvps ≠
      [⟨0, 1, RsvpStatus.cancelled⟩] := by
  decide

/-- C5 (amended): during leave, if the ledger release fails because
`attendeeCount` is already 0, the transaction is aborted, which also
rolls back the status flip of the attendance record: the operation
returns the generic update-error rejection with the database unchanged —
the record remains `confirmed` (it is effectively re-activated by the
rollback) rather than being left `cancelled`. -/
theorem leave_floor_rolls_back (db : DB) (e u : Nat) (ev : EventRec)
    (hr : (findRsvp db.rsvps e u RsvpStatus.confirmed).isSome)
    (hl : lookupEvent db.events e = some ev)
    (h0 : ev.attendeeCount = 0) :
    cancelRsvp db e u = (ApiResult.updateError, db) := by
  have hrel := ledgerRelease_floor db.events e ev hl
    (by rw [h0]; exact Nat.lt_irrefl 0)
  cases hfind : findRsvp db.rsvps e u RsvpStatus.confirmed with
  | none => rw [hfind] at hr; simp at hr
  | some r =>
    have hnone : (findRsvp db.rsvps e u RsvpStatus.confirmed).isNone = false := by
      rw [hfind]; rfl
    simp [cancelRsvp, hnone, hl, hrel]

theorem leave_floor_rolls_back_witness :
    cancelRsvp ⟨[(2, ⟨1, 0, true, 9⟩)], [⟨2, 3, RsvpStatus.confirmed⟩]⟩ 2 3 =
      (ApiResult.updateError,
       ⟨[(2, ⟨1, 0, true, 9⟩)], [⟨2, 3, RsvpStatus.confirmed⟩]⟩) :=
  leave_floor_rolls_back ⟨[(2, ⟨1, 0, true, 9⟩)], [⟨2, 3, RsvpStatus.confirmed⟩]⟩
    2 3 ⟨1, 0, true, 9⟩ (by decide) (by decide) rfl

theorem no_confirmed_of_all_cancelled (rs : List RsvpRecord) (e u : Nat)
    (hpair : ∀ r ∈ rs, r.event = e → r.user = u →
      r.status = RsvpStatus.cancelled) :
    (findRsvp rs e u RsvpStatus.confirmed).isSome = false := by
  cases hF : (findRsvp rs e u RsvpStatus.confirmed).isSome with
  | false => rfl
  | true =>
    rcases (findRsvp_isSome_iff rs e u RsvpStatus.confirmed).mp hF
      with ⟨r, hr, he, hu, hst⟩
    have hcz := hpair r hr he hu
    rw [hst] at hcz
    exact RsvpStatus.noConfusion hcz

theorem no_pair_of_all_cancelled_no_cancelled (rs : List RsvpRecord) (e u : Nat)
    (hpair : ∀ r ∈ rs, r.event = e → r.user = u →
      r.status = RsvpStatus.cancelled)
    (hnc : (findRsvp rs e u RsvpStatus.cancelled).isSome = false) :
    ∀ r ∈ rs, ¬ (r.event = e ∧ r.user = u) := by
  intro r hr hp
  have hst := hpair r hr hp.1 hp.2
  have hS : (findRsvp rs e u RsvpStatus.cancelled).isSome :=
    (findRsvp_isSome_iff rs e u RsvpStatus.cancelled).mpr
      ⟨r, hr, hp.1, hp.2, hst⟩
  rw [hnc] at hS
  exact Bool.noConfusion hS

theorem createRsvp_flip (db : DB) (e u : Nat) (ev : EventRec)
    (hl : lookupEvent db.events e = some ev) (hfut : ev.isFuture = true)
    (hc : ev.attendeeCount < ev.capacity)
    (hconf : (findRsvp db.rsvps e u RsvpStatus.confirmed).isSome = false)
    (hcanc : (findRsvp db.rsvps e u RsvpStatus.cancelled).isSome = true) :
    createRsvp db e u =
      (ApiResult.committed (ev.attendeeCount + 1) ev.capacity,
       { events := setEvent db.events e
           { ev with attendeeCount := ev.attendeeCount + 1 },
         rsvps := reactivateFirst db.rsvps e u }) := by
  have hadm := ledgerReserve_some db.events e ev hl hc
  simp [createRsvp, hl, hfut, hconf, hcanc, hadm]

theorem createRsvp_insert (db : DB) (e u : Nat) (ev : EventRec)
    (hl : lookupEvent db.events e = some ev) (hfut : ev.isFuture = true)
    (hc : ev.attendeeCount < ev.capacity)
    (hconf : (findRsvp db.rsvps e u RsvpStatus.confirmed).isSome = false)
    (hcanc : (findRsvp db.rsvps e u RsvpStatus.cancelled).isSome = false)
    (hall : ∀ r ∈ db.rsvps, ¬ (r.event = e ∧ r.user = u)) :
    createRsvp db e u =
      (ApiResult.committed (ev.attendeeCount + 1) ev.capacity,
       { events := setEvent db.events e
           { ev with attendeeCount := ev.attendeeCount + 1 },
         rsvps := db.rsvps ++ [⟨e, u, RsvpStatus.confirmed⟩] }) := by
  have hadm := ledgerReserve_some db.events e ev hl hc
  have hany : db.rsvps.any (fun r => decide (r.event = e ∧ r.user = u)) =
      false := by
    cases hA : db.rsvps.any (fun r => decide (r.event = e ∧ r.user = u)) with
    | false => rfl
    | true =>
      obtain ⟨r, hr, hp⟩ := List.any_eq_true.mp hA
      exact absurd (of_decide_eq_true hp) (hall r hr)
  have hins : insertRsvp db.rsvps e u =
      some (db.rsvps ++ [⟨e, u, RsvpStatus.confirmed⟩]) := by
    unfold insertRsvp
    rw [hany]
    rfl
  simp [createRsvp, hl, hfut, hconf, hcanc, hadm, hins]

theorem findRsvp_confirmed_after_join (db : DB) (e u : Nat) (ev : EventRec)
    (hl : lookupEvent db.events e = some ev) (hfut : ev.isFuture = true)
    (hc : ev.attendeeCount < ev.capacity)
    (hpair : ∀ r ∈ db.rsvps, r.event = e → r.user = u →
      r.status = RsvpStatus.cancelled) :
    (findRsvp (createRsvp db e u).2.rsvps e u RsvpStatus.confirmed).isSome =
      true := by
  have hconf := no_confirmed_of_all_cancelled db.rsvps e u hpair
  cases hcanc : (findRsvp db.rsvps e u RsvpStatus.cancelled).isSome with
  | true =>
    rw [createRsvp_flip db e u ev hl hfut hc hconf hcanc]
    refine (findRsvp_isSome_iff _ e u RsvpStatus.confirmed).mpr ?_
    refine mem_reactivateFirst_confirmed db.rsvps e u ?_
    exact (findRsvp_isSome_iff db.rsvps e u RsvpStatus.cancelled).mp hcanc
  | false =>
    have hall := no_pair_of_all_cancelled_no_cancelled db.rsvps e u hpair hcanc
    rw [createRsvp_insert db e u ev hl hfut hc hconf hcanc hall]
    refine (findRsvp_isSome_iff _ e u RsvpStatus.confirmed).mpr ?_
    exact ⟨⟨e, u, RsvpStatus.confirmed⟩,
      List.mem_append.mpr (Or.inr (List.mem_singleton.mpr rfl)), rfl, rfl, rfl⟩

theorem lookup_after_join (db : DB) (e u : Nat) (ev : EventRec)
    (hl : lookupEvent db.events e = some ev) (hfut : ev.isFuture = true)
    (hc : ev.attendeeCount < ev.capacity)
    (hpair : ∀ r ∈ db.rsvps, r.event = e → r.user = u →
      r.status = RsvpStatus.cancelled) :
    lookupEvent (createRsvp db e u).2.events e =
      some { ev with attendeeCount := ev.attendeeCount + 1 } := by
  have hconf := no_confirmed_of_all_cancelled db.rsvps e u hpair
  have hsome : (lookupEvent db.events e).isSome := by rw [hl]; rfl
  cases hcanc : (findRsvp db.rsvps e u RsvpStatus.cancelled).isSome with
  | true =>
    rw [createRsvp_flip db e u ev hl hfut hc hconf hcanc]
    exact lookupEvent_setEvent_self db.events e _ hsome
  | false =>
    have hall := no_pair_of_all_cancelled_no_cancelled db.rsvps e u hpair hcanc
    rw [createRsvp_insert db e u ev hl hfut hc hconf hcanc hall]
    exact lookupEvent_setEvent_self db.events e _ hsome

/-- C6: Starting from any state where the pair has no confirmed record
(every record for the pair, if any, is `cancelled`) and the event exists,
is in the future and has a free slot, calling join twice in immediate
succession yields the committed result with the post-increment snapshot,
then the already-RSVPed rejection, with the database — in particular
`attendeeCount` — unchanged by the second call: the count is incremented
exactly once across the two calls (last conjunct). -/
theorem join_twice_idempotent (db : DB) (e u : Nat) (ev : EventRec)
    (hl : lookupEvent db.events e = some ev) (hfut : ev.isFuture = true)
    (hc : ev.attendeeCount < ev.capacity)
    (hpair : ∀ r ∈ db.rsvps, r.event = e → r.user = u →
      r.status = RsvpStatus.cancelled) :
    (createRsvp db e u).1 =
      ApiResult.committed (ev.attendeeCount + 1) ev.capacity ∧
    createRsvp (createRsvp db e u).2 e u =
      (ApiResult.alreadyRsvped, (createRsvp db e u).2) ∧
    lookupEvent (createRsvp db e u).2.events e =
      some { ev with attendeeCount := ev.attendeeCount + 1 } := by
  have hconf := no_confirmed_of_all_cancelled db.rsvps e u hpair
  have hlook2 := lookup_after_join db e u ev hl hfut hc hpair
  have hfind2 := findRsvp_confirmed_after_join db e u ev hl hfut hc hpair
  refine ⟨?_, ?_, hlook2⟩
  · cases hcanc : (findRsvp db.rsvps e u RsvpStatus.cancelled).isSome with
    | true => rw [createRsvp_flip db e u ev hl hfut hc hconf hcanc]
    | false =>
      have hall := no_pair_of_all_cancelled_no_cancelled db.rsvps e u hpair hcanc
      rw [createRsvp_insert db e u ev hl hfut hc hconf hcanc hall]
  · obtain ⟨db1, hdb1⟩ : ∃ db1, (createRsvp db e u).2 = db1 := ⟨_, rfl⟩
    rw [hdb1] at hlook2 hfind2 ⊢
    simp [createRsvp, hlook2, hfind2, hfut]

theorem join_twice_idempotent_witness :
    (createRsvp ⟨[(0, ⟨2, 1, true, 9⟩)], []⟩ 0 7).1 =
      ApiResult.committed 2 2 ∧
    createRsvp (createRsvp ⟨[(0, ⟨2, 1, true, 9⟩)], []⟩ 0 7).2 0 7 =
      (ApiResult.alreadyRsvped,
       (createRsvp ⟨[(0, ⟨2, 1, true, 9⟩)], []⟩ 0 7).2) :=
  ⟨(join_twice_idempotent ⟨[(0, ⟨2, 1, true, 9⟩)], []⟩ 0 7 ⟨2, 1, true, 9⟩
      (by decide) rfl (by decide) (by intro r hr; simp at hr)).1,
   (join_twice_idempotent ⟨[(0, ⟨2, 1, true, 9⟩)], []⟩ 0 7 ⟨2, 1, true, 9⟩
      (by decide) rfl (by decide) (by intro r hr; simp at hr)).2.1⟩

theorem option_eq_none_of_isSome_false {α : Type} (o : Option α)
    (h : o.isSome = false) : o = none := by
  cases o with
  | none => rfl
  | some a => simp at h

theorem option_isNone_false_of_isSome {α : Type} (o : Option α)
    (h : o.isSome = true) : o.isNone = false := by
  cases o with
  | none => simp at h
  | some a => rfl

/-- C7: Starting from any state where the pair has no confirmed record
(every record for the pair, if any, is `cancelled`) and the event exists,
is in the future and has a free slot, join followed by leave for the same
pair commits both operations, restores `attendeeCount` to its pre-join
value (the event document after the two calls is exactly the original
one), and the status query afterwards reports the caller as not having
RSVPed, with no record details. -/
theorem join_leave_round_trip (db : DB) (e u : Nat) (ev : EventRec)
    (hl : lookupEvent db.events e = some ev) (hfut : ev.isFuture = true)
    (hc : ev.attendeeCount < ev.capacity)
    (hpair : ∀ r ∈ db.rsvps, r.event = e → r.user = u →
      r.status = RsvpStatus.cancelled) :
    (createRsvp db e u).1 =
      ApiResult.committed (ev.attendeeCount + 1) ev.capacity ∧
    (cancelRsvp (createRsvp db e u).2 e u).1 =
      ApiResult.committed ev.attendeeCount ev.capacity ∧
    lookupEvent (cancelRsvp (createRsvp db e u).2 e u).2.events e = some ev ∧
    getRsvpStatus (cancelRsvp (createRsvp db e u).2 e u).2 e u =
      (false, none) := by
  have hconf := no_confirmed_of_all_cancelled db.rsvps e u hpair
  have hsome : (lookupEvent db.events e).isSome := by rw [hl]; rfl
  have hlook1 : lookupEvent
      (setEvent db.events e { ev with attendeeCount := ev.attendeeCount + 1 }) e
      = some { ev with attendeeCount := ev.attendeeCount + 1 } :=
    lookupEvent_setEvent_self db.events e _ hsome
  have hsome1 : (lookupEvent
      (setEvent db.events e { ev with attendeeCount := ev.attendeeCount + 1 })
      e).isSome := by rw [hlook1]; rfl
  have hrel : ledgerRelease
      (setEvent db.events e { ev with attendeeCount := ev.attendeeCount + 1 }) e
      = (some ev,
         setEvent
           (setEvent db.events e { ev with attendeeCount := ev.attendeeCount + 1 })
           e ev) :=
    ledgerRelease_some _ e { ev with attendeeCount := ev.attendeeCount + 1 }
      hlook1 (Nat.succ_pos _)
  cases hcanc : (findRsvp db.rsvps e u RsvpStatus.cancelled).isSome with
  | true =>
    have hjoin := createRsvp_flip db e u ev hl hfut hc hconf hcanc
    have hflip : cancelFirst (reactivateFirst db.rsvps e u) e u = db.rsvps :=
      cancelFirst_reactivateFirst_cancel db.rsvps e u hpair
    have hfindS : (findRsvp (reactivateFirst db.rsvps e u) e u
        RsvpStatus.confirmed).isSome = true :=
      (findRsvp_isSome_iff _ e u RsvpStatus.confirmed).mpr
        (mem_reactivateFirst_confirmed db.rsvps e u
          ((findRsvp_isSome_iff db.rsvps e u RsvpStatus.cancelled).mp hcanc))
    have hfindN := option_isNone_false_of_isSome _ hfindS
    have hcan : cancelRsvp (createRsvp db e u).2 e u =
        (ApiResult.committed ev.attendeeCount ev.capacity,
         { events := setEvent
             (setEvent db.events e { ev with attendeeCount := ev.attendeeCount + 1 })
             e ev,
           rsvps := db.rsvps }) := by
      rw [hjoin]
      simp [cancelRsvp, hfindN, hlook1, hrel, hflip]
    have hnone := option_eq_none_of_isSome_false _ hconf
    refine ⟨by rw [hjoin], by rw [hcan], ?_, ?_⟩
    · rw [hcan]
      exact lookupEvent_setEvent_self _ e ev hsome1
    · rw [hcan]
      simp [getRsvpStatus, hnone]
  | false =>
    have hall := no_pair_of_all_cancelled_no_cancelled db.rsvps e u hpair hcanc
    have hjoin := createRsvp_insert db e u ev hl hfut hc hconf hcanc hall
    have hflip : cancelFirst (db.rsvps ++ [⟨e, u, RsvpStatus.confirmed⟩]) e u =
        db.rsvps ++ [⟨e, u, RsvpStatus.cancelled⟩] :=
      cancelFirst_append_fresh db.rsvps e u hall
    have hfindS : (findRsvp (db.rsvps ++ [⟨e, u, RsvpStatus.confirmed⟩]) e u
        RsvpStatus.confirmed).isSome = true :=
      (findRsvp_isSome_iff _ e u RsvpStatus.confirmed).mpr
        ⟨⟨e, u, RsvpStatus.confirmed⟩,
         List.mem_append.mpr (Or.inr (List.mem_singleton.mpr rfl)),
         rfl, rfl, rfl⟩
    have hfindN := option_isNone_false_of_isSome _ hfindS
    have hcan : cancelRsvp (createRsvp db e u).2 e u =
        (ApiResult.committed ev.attendeeCount ev.capacity,
         { events := setEvent
             (setEvent db.events e { ev with attendeeCount := ev.attendeeCount + 1 })
             e ev,
           rsvps := db.rsvps ++ [⟨e, u, RsvpStatus.cancelled⟩] }) := by
      rw [hjoin]
      simp [cancelRsvp, hfindN, hlook1, hrel, hflip]
    have hnone : findRsvp (db.rsvps ++ [⟨e, u, RsvpStatus.cancelled⟩]) e u
        RsvpStatus.confirmed = none := by
      refine (findRsvp_eq_none_iff _ e u RsvpStatus.confirmed).mpr ?_
      intro r hr hx
      rcases List.mem_append.mp hr with hr | hr
      · exact hall r hr ⟨hx.1, hx.2.1⟩
      · rw [List.mem_singleton.mp hr] at hx
        exact RsvpStatus.noConfusion hx.2.2
    refine ⟨by rw [hjoin], by rw [hcan], ?_, ?_⟩
    · rw [hcan]
      exact lookupEvent_setEvent_self _ e ev hsome1
    · rw [hcan]
      simp [getRsvpStatus, hnone]

theorem join_leave_round_trip_witness :
    (createRsvp ⟨[(4, ⟨3, 2, true, 9⟩)], []⟩ 4 8).1 =
      ApiResult.committed 3 3 ∧
    (cancelRsvp (createRsvp ⟨[(4, ⟨3, 2, true, 9⟩)], []⟩ 4 8).2 4 8).1 =
      ApiResult.committed 2 3 ∧
    getRsvpStatus (cancelRsvp (createRsvp ⟨[(4, ⟨3, 2, true, 9⟩)], []⟩ 4 8).2
      4 8).2 4 8 = (false, none) :=
  ⟨(join_leave_round_trip ⟨[(4, ⟨3, 2, true, 9⟩)], []⟩ 4 8 ⟨3, 2, true, 9⟩
      (by decide) rfl (by decide) (by intro r hr; simp at hr)).1,
   (join_leave_round_trip ⟨[(4, ⟨3, 2, true, 9⟩)], []⟩ 4 8 ⟨3, 2, true, 9⟩
      (by decide) rfl (by decide) (by intro r hr; simp at hr)).2.1,
   (join_leave_round_trip ⟨[(4, ⟨3, 2, true, 9⟩)], []⟩ 4 8 ⟨3, 2, true, 9⟩
      (by decide) rfl (by decide) (by intro r hr; simp at hr)).2.2.2⟩

/-- C8: `attendeeCount` is mutated only through the guarded conditional
updates of join and leave.  The event-update handler never changes any
`attendeeCount` of any event, whatever the request supplies — the request
model carries an `attendeeCount` field precisely to record that the
handler never reads it (first conjunct, which also shows it leaves the
RSVP collection alone).  Join changes a count only at the addressed
event, only by the admit conditional update (+1 under the strict
capacity guard), and leave only by the release conditional update (−1
under the positivity guard); no path reads a count and writes back a
modified value outside these two updates (second and third conjuncts). -/
theorem attendee_count_frame (db : DB) :
    (∀ e c req, (updateEvent db e c req).2.rsvps = db.rsvps ∧
      ∀ id, (lookupEvent (updateEvent db e c req).2.events id).map
          (·.attendeeCount) =
        (lookupEvent db.events id).map (·.attendeeCount)) ∧
    (∀ e u id, lookupEvent (createRsvp db e u).2.events id =
        lookupEvent db.events id ∨
      (id = e ∧ ∃ ev, lookupEvent db.events e = some ev ∧
        ev.attendeeCount < ev.capacity ∧
        lookupEvent (createRsvp db e u).2.events id =
          some { ev with attendeeCount := ev.attendeeCount + 1 })) ∧
    (∀ e u id, lookupEvent (cancelRsvp db e u).2.events id =
        lookupEvent db.events id ∨
      (id = e ∧ ∃ ev, lookupEvent db.events e = some ev ∧
        0 < ev.attendeeCount ∧
        lookupEvent (cancelRsvp db e u).2.events id =
          some { ev with attendeeCount := ev.attendeeCount - 1 })) := by
  refine ⟨?_, ?_, ?_⟩
  · intro e c req
    rcases updateEvent_cases db e c req with hE | ⟨ev, ev', hl, hguard, hev', hE⟩
    · rw [hE]; exact ⟨rfl, fun id => rfl⟩
    · rw [hE]
      refine ⟨rfl, ?_⟩
      intro id
      by_cases hid : id = e
      · subst hid
        have hsome : (lookupEvent db.events id).isSome := by rw [hl]; rfl
        rw [show ({ db with events := setEvent db.events id ev' } : DB).events =
          setEvent db.events id ev' from rfl]
        rw [lookupEvent_setEvent_self db.events id ev' hsome, hl]
        subst hev'
        rfl
      · rw [show ({ db with events := setEvent db.events e ev' } : DB).events =
          setEvent db.events e ev' from rfl]
        rw [lookupEvent_setEvent_ne db.events e id ev' hid]
  · intro e u id
    rcases createRsvp_events_cases db e u with hE | ⟨ev, hl, hc, hE⟩
    · left; rw [hE]
    · by_cases hid : id = e
      · subst hid
        right
        refine ⟨rfl, ev, hl, hc, ?_⟩
        have hsome : (lookupEvent db.events id).isSome := by rw [hl]; rfl
        rw [hE]
        exact lookupEvent_setEvent_self db.events id _ hsome
      · left
        rw [hE]
        exact lookupEvent_setEvent_ne db.events e id _ hid
  · intro e u id
    rcases cancelRsvp_cases db e u with hE | ⟨ev, hl, hc, hE⟩
    · left; rw [hE]
    · by_cases hid : id = e
      · subst hid
        right
        refine ⟨rfl, ev, hl, hc, ?_⟩
        have hsome : (lookupEvent db.events id).isSome := by rw [hl]; rfl
        rw [hE]
        exact lookupEvent_setEvent_self db.events id _ hsome
      · left
        rw [hE]
        exact lookupEvent_setEvent_ne db.events e id _ hid

/-- C9: A successful event deletion cascade-deletes the RSVPs: the
resulting RSVP collection is exactly the original one with every record
referencing the deleted event filtered out, so no RSVP for that event
remains. -/
theorem delete_event_cascades (db : DB) (e c : Nat) (r : ApiResult) (db' : DB)
    (h : deleteEvent db e c = (r, db')) (hr : r = ApiResult.eventDeleted) :
    db'.rsvps = db.rsvps.filter (fun x => decide (x.event ≠ e)) ∧
    ∀ x ∈ db'.rsvps, x.event ≠ e := by
  subst hr
  rcases hl : lookupEvent db.events e with _ | ev
  · simp only [deleteEvent, hl, Prod.mk.injEq] at h
    exact absurd h.1 (by simp)
  · by_cases hcr : ev.creator = c
    · have hcr' : ¬ ev.creator ≠ c := fun hh => hh hcr
      simp only [deleteEvent, hl, hcr', if_false, Prod.mk.injEq] at h
      obtain ⟨-, h2⟩ := h
      subst h2
      refine ⟨rfl, ?_⟩
      intro x hx
      exact of_decide_eq_true (List.mem_filter.mp hx).2
    · simp only [deleteEvent, hl] at h
      rw [if_pos hcr] at h
      simp only [Prod.mk.injEq] at h
      exact absurd h.1 (by simp)

theorem delete_event_cascades_witness :
    (⟨[], [⟨0, 3, RsvpStatus.confirmed⟩]⟩ : DB).rsvps =
      ([⟨1, 3, RsvpStatus.confirmed⟩, ⟨0, 3, RsvpStatus.confirmed⟩] :
        List RsvpRecord).filter (fun x => decide (x.event ≠ 1)) ∧
    ∀ x ∈ (⟨[], [⟨0, 3, RsvpStatus.confirmed⟩]⟩ : DB).rsvps, x.event ≠ 1 :=
  delete_event_cascades ⟨[(1, ⟨5, 1, true, 2⟩)],
    [⟨1, 3, RsvpStatus.confirmed⟩, ⟨0, 3, RsvpStatus.confirmed⟩]⟩ 1 2
    ApiResult.eventDeleted ⟨[], [⟨0, 3, RsvpStatus.confirmed⟩]⟩ (by decide) rfl

/-- C10: The status query reports `hasRsvped = true` exactly when a
record with status `confirmed` exists for the pair; when none does —
whether because the caller never joined or because only a `cancelled`
record remains — the response is `(false, none)`, with no record
details, the same output in both situations. -/
theorem status_query_confirmed_iff (db : DB) (e u : Nat) :
    ((getRsvpStatus db e u).1 = true ↔
      ∃ r ∈ db.rsvps, r.event = e ∧ r.user = u ∧
        r.status = RsvpStatus.confirmed) ∧
    ((∀ r ∈ db.rsvps, ¬ (r.event = e ∧ r.user = u ∧
        r.status = RsvpStatus.confirmed)) →
      getRsvpStatus db e u = (false, none)) := by
  constructor
  · cases hF : findRsvp db.rsvps e u RsvpStatus.confirmed with
    | none =>
      simp only [getRsvpStatus, hF]
      constructor
      · intro hcontra
        exact absurd hcontra (by simp)
      · intro hex
        have hnone := (findRsvp_eq_none_iff db.rsvps e u
          RsvpStatus.confirmed).mp hF
        rcases hex with ⟨r, hr, hp⟩
        exact absurd hp (hnone r hr)
    | some r =>
      simp only [getRsvpStatus, hF]
      constructor
      · intro _
        have hF' : db.rsvps.find? (fun x => decide (x.event = e ∧ x.user = u ∧
            x.status = RsvpStatus.confirmed)) = some r := hF
        have hpr := List.find?_some hF'
        simp only [decide_eq_true_eq] at hpr
        exact ⟨r, List.mem_of_find?_eq_some hF', hpr⟩
      · intro _; trivial
  · intro hall
    have hF : findRsvp db.rsvps e u RsvpStatus.confirmed = none :=
      (findRsvp_eq_none_iff db.rsvps e u RsvpStatus.confirmed).mpr hall
    simp [getRsvpStatus, hF]

theorem status_query_confirmed_iff_witness :
    getRsvpStatus ⟨[], [⟨5, 6, RsvpStatus.cancelled⟩]⟩ 5 6 = (false, none) :=
  (status_query_confirmed_iff ⟨[], [⟨5, 6, RsvpStatus.cancelled⟩]⟩ 5 6).2
    (by decide)
